import Mathlib

/-!
Verification of the VibeDining repository against its specification.

The frontend code (Next.js API route, geolocation hook) is embedded
directly from the TypeScript sources.  The ingestion pipeline exists in
the repository only as architecture documentation, so its operations are
modelled from the specification text and marked as such.
-/

namespace VibeDining

/-! ### JavaScript value model for the frontend route handler -/

/-- A JavaScript value as it can appear in a parsed JSON request body
(plus `undefined` for an absent property).  Embeds the dynamic typing of
src/frontend/src/app/api/chat/route.ts. -/
inductive JSValue
  | jsUndef
  | jsNull
  | jsStr (s : String)
  | jsNum (q : ℚ)
  | jsBool (b : Bool)
  | jsObj
  deriving DecidableEq, Repr

/-- JavaScript truthiness of a value: `undefined`, `null`, the empty
string, `0` and `false` are falsy, everything else modelled here is
truthy. -/
def jsTruthy : JSValue → Bool
  | .jsUndef => false
  | .jsNull => false
  | .jsStr s => !(s == "")
  | .jsNum q => !(q == 0)
  | .jsBool b => b
  | .jsObj => true

/-- Whether `typeof v === "string"` holds. -/
def jsIsString : JSValue → Bool
  | .jsStr _ => true
  | _ => false

/-- JavaScript truthiness of the `RAILWAY_API_KEY` environment variable:
absent or empty means falsy. -/
def keyTruthy : Option String → Bool
  | none => false
  | some s => !(s == "")

/-- Outcome of the backend `fetch` in the route handler, abstracting the
network: HTTP `ok` flag, status code and response text. -/
structure BackendResult where
  ok : Bool
  status : Nat
  text : String
  deriving DecidableEq, Repr

/-- The JSON response the route handler produces. -/
structure RouteResponse where
  status : Nat
  errorMsg : Option String
  messageContent : Option String
  deriving DecidableEq, Repr

/-- Result of one invocation of the route handler, including whether the
backend `fetch` was performed. -/
structure RouteOutcome where
  response : RouteResponse
  backendCalled : Bool
  deriving DecidableEq, Repr

/-- Embedding of the `POST` handler of
src/frontend/src/app/api/chat/route.ts.  `content` is `body.content` of
the parsed JSON body; `apiKey` is the `RAILWAY_API_KEY` environment
variable; `backend` abstracts the `fetch` to the Railway backend. -/
def chatPOST (content : JSValue) (apiKey : Option String) (backend : BackendResult) :
    RouteOutcome :=
  if !(jsTruthy content) || !(jsIsString content) then
    ⟨⟨400, some "Content is required and must be a string", none⟩, false⟩
  else if !(keyTruthy apiKey) then
    ⟨⟨500, some "Server configuration error", none⟩, false⟩
  else if !backend.ok then
    ⟨⟨backend.status, some ("Backend error: " ++ toString backend.status ++ " - " ++ backend.text),
      none⟩, true⟩
  else
    ⟨⟨200, none,
      some (if backend.text == "" then "No response from backend" else backend.text)⟩, true⟩

/-! ### Geolocation hook (src/unnamed/part_004) -/

/-- The `GeolocationState` React state of the `useGeolocation` hook.
JavaScript `number | null` fields are modelled as `Option ℚ` (the NaN
value of IEEE floats is not modelled; no claim depends on it). -/
structure GeolocationState where
  latitude : Option ℚ
  longitude : Option ℚ
  accuracy : Option ℚ
  errorMsg : Option String
  loading : Bool
  deriving DecidableEq, Repr

/-- The `LocationContext` returned by `getLocationContext`. -/
structure LocationContext where
  latitude : ℚ
  longitude : ℚ
  accuracy : ℚ
  deriving DecidableEq, Repr

/-- JavaScript truthiness of a `number | null` state field. -/
def numTruthy : Option ℚ → Bool
  | none => false
  | some q => !(q == 0)

/-- Embedding of `getLocationContext` from src/unnamed/part_004: the
guard is the JavaScript truthiness conjunction
`location.latitude && location.longitude && location.accuracy`. -/
def getLocationContext (loc : GeolocationState) : Option LocationContext :=
  if numTruthy loc.latitude && numTruthy loc.longitude && numTruthy loc.accuracy then
    some ⟨loc.latitude.getD 0, loc.longitude.getD 0, loc.accuracy.getD 0⟩
  else
    none

/-! ### Theorems for the frontend claims -/

/-- Claim C9: a POST body whose `content` is absent or not a string gets
status 400 with an error message and no backend request; the backend
call is attempted only when `content` is a string. -/
theorem chat_route_validates_content :
    (∀ (content : JSValue) (apiKey : Option String) (backend : BackendResult),
      jsIsString content = false →
        (chatPOST content apiKey backend).response.status = 400 ∧
        (chatPOST content apiKey backend).response.errorMsg.isSome = true ∧
        (chatPOST content apiKey backend).backendCalled = false) ∧
    (∀ (content : JSValue) (apiKey : Option String) (backend : BackendResult),
      (chatPOST content apiKey backend).backendCalled = true → jsIsString content = true) := by
  constructor
  · intro content apiKey backend h
    simp [chatPOST, h]
  · intro content apiKey backend h
    by_cases hs : jsIsString content = true
    · exact hs
    · exfalso
      rw [eq_comm] at h
      simp [chatPOST, Bool.eq_false_iff.mpr hs] at h

/-- Witness for C9: a numeric `content` is rejected with 400 and no
backend call. -/
theorem chat_route_validates_content_witness :
    (chatPOST (.jsNum 5) (some "k") ⟨true, 200, "hi"⟩).response.status = 400 ∧
    (chatPOST (.jsNum 5) (some "k") ⟨true, 200, "hi"⟩).response.errorMsg.isSome = true ∧
    (chatPOST (.jsNum 5) (some "k") ⟨true, 200, "hi"⟩).backendCalled = false :=
  chat_route_validates_content.1 (.jsNum 5) (some "k") ⟨true, 200, "hi"⟩ (by decide)

/-- Claim C10: `getLocationContext` returns a context only when
latitude, longitude and accuracy are all non-null and nonzero; in every
other state (including a coordinate equal to 0) it returns `null`, and a
returned context carries exactly those three values. -/
theorem getLocationContext_spec :
    (∀ (loc : GeolocationState) (ctx : LocationContext),
      getLocationContext loc = some ctx →
        (loc.latitude = some ctx.latitude ∧ ctx.latitude ≠ 0) ∧
        (loc.longitude = some ctx.longitude ∧ ctx.longitude ≠ 0) ∧
        (loc.accuracy = some ctx.accuracy ∧ ctx.accuracy ≠ 0)) ∧
    (∀ loc : GeolocationState,
      ¬ (numTruthy loc.latitude = true ∧ numTruthy loc.longitude = true ∧
          numTruthy loc.accuracy = true) →
        getLocationContext loc = none) := by
  constructor
  · intro loc ctx h
    by_cases hg : numTruthy loc.latitude && numTruthy loc.longitude && numTruthy loc.accuracy
    · rw [getLocationContext, if_pos hg, Option.some_inj] at h
      simp only [Bool.and_eq_true] at hg
      obtain ⟨⟨hla, hlo⟩, hac⟩ := hg
      cases hlat : loc.latitude with
      | none => rw [hlat] at hla; simp [numTruthy] at hla
      | some la =>
        cases hlon : loc.longitude with
        | none => rw [hlon] at hlo; simp [numTruthy] at hlo
        | some lo =>
          cases hacc : loc.accuracy with
          | none => rw [hacc] at hac; simp [numTruthy] at hac
          | some ac =>
            rw [hlat] at hla h
            rw [hlon] at hlo h
            rw [hacc] at hac h
            simp [numTruthy] at hla hlo hac
            subst h
            simp_all
    · rw [getLocationContext, if_neg hg] at h
      exact absurd h (by simp)
  · intro loc h
    rw [getLocationContext, if_neg]
    intro hg
    simp only [Bool.and_eq_true] at hg
    exact h ⟨hg.1.1, hg.1.2, hg.2⟩

/-- Witness for C10: a state with latitude 0 yields no context, and a
fully populated state is reflected in the returned context. -/
theorem getLocationContext_spec_witness :
    getLocationContext ⟨some 0, some 5, some 7, none, false⟩ = none ∧
    ((⟨some 3, some 5, some 7, none, false⟩ : GeolocationState).latitude =
        some (3 : ℚ) ∧ (3 : ℚ) ≠ 0) := by
  constructor
  · exact getLocationContext_spec.2 ⟨some 0, some 5, some 7, none, false⟩ (by decide)
  · exact (getLocationContext_spec.1 ⟨some 3, some 5, some 7, none, false⟩ ⟨3, 5, 7⟩
      (by decide)).1

/-! ### Ingestion pipeline — data model

The pipeline implementation is present in the repository only as
architecture documentation (the scraper architecture document and the
backend README), so the definitions below are modelled from the
specification. -/

/-- Modelled from the spec: the stable canonical identifier of a place
(implementation absent from the repository; only documented). -/
abbrev CanonicalId := String

/-- Modelled from the spec: the external reference string keying an
input record. -/
abbrev ExternalRef := String

/-- Modelled from the spec: one row of the input list. -/
structure InputRecord where
  name : String
  externalRef : ExternalRef
  deriving DecidableEq, Repr

/-- Modelled from the spec: the error taxonomy of §7 (implementation
absent from the repository; only documented). -/
inductive PipelineError
  | MalformedInputError
  | ResolutionError
  | EnrichmentError
  | SummarizationError
  | PartialWriteError
  deriving DecidableEq, Repr

/-- Modelled from the spec: the stage of the per-record state machine at
which an error arose. -/
inductive Stage
  | resolving
  | enriching
  | summarizing
  | writing
  deriving DecidableEq, Repr

/-- Modelled from the spec: result of the structured-fields fetch (Task
A), carrying the CanonicalId it was resolved against. -/
structure StructuredFetchResult where
  canonicalId : CanonicalId
  address : String
  lat : ℚ
  lon : ℚ
  category : String
  deriving DecidableEq, Repr

/-- Modelled from the spec: result of the content extraction (Task B),
carrying the CanonicalId it was resolved against. -/
structure ContentExtractionResult where
  canonicalId : CanonicalId
  attributes : List String
  rating : ℚ
  priceLevel : String
  rawContent : String
  deriving DecidableEq, Repr

/-- Modelled from the spec: the enriched record assembled by joining the
two sub-results. -/
structure EnrichedRecord where
  canonicalId : CanonicalId
  name : String
  address : String
  lat : ℚ
  lon : ℚ
  rating : ℚ
  priceLevel : String
  category : String
  attributes : List String
  rawContent : String
  deriving DecidableEq, Repr

/-- Modelled from the spec: the four section kinds of the summarizer
output. -/
inductive SectionKind
  | description
  | atmosphere
  | offerings
  | features
  deriving DecidableEq, Repr

/-- Modelled from the spec: the summarizer output — exactly four named
text sections. -/
structure Summaries where
  description : String
  atmosphere : String
  offerings : String
  features : String
  deriving DecidableEq, Repr

/-- The four sections of a summarizer output as an association list. -/
def Summaries.sections (s : Summaries) : List (SectionKind × String) :=
  [(.description, s.description), (.atmosphere, s.atmosphere),
   (.offerings, s.offerings), (.features, s.features)]

/-- Modelled from the spec: one semantic-store document. -/
structure SummaryDoc where
  canonicalId : CanonicalId
  sectionKind : SectionKind
  text : String
  deriving DecidableEq, Repr

/-- Modelled from the spec: the four SummaryDocs of one record, one per
section kind. -/
def summaryDocs (cid : CanonicalId) (s : Summaries) : List SummaryDoc :=
  s.sections.map fun p => ⟨cid, p.1, p.2⟩

/-- Modelled from the spec: checkpoint status values. -/
inductive CPStatus
  | success
  | failed
  deriving DecidableEq, Repr

/-- Modelled from the spec: one checkpoint entry. -/
structure CheckpointEntry where
  externalRef : ExternalRef
  canonicalId : Option CanonicalId
  lastProcessedAt : Nat
  status : CPStatus
  deriving DecidableEq, Repr

/-! ### Generic keyed upsert

Every store of the pipeline (relational place rows, locality links,
semantic documents, checkpoint entries) has upsert-by-key semantics;
they share this one implementation. -/

/-- Upsert into a list keyed by `key`: replace the rows with the same
key if any exist, otherwise append. -/
def upsertBy {α κ : Type} [DecidableEq κ] (key : α → κ) (store : List α) (a : α) : List α :=
  if store.any (fun x => key x = key a) then
    store.map (fun x => if key x = key a then a else x)
  else
    store ++ [a]

/-- Number of rows of a store with a given key. -/
def countKey {α κ : Type} [DecidableEq κ] (key : α → κ) (store : List α) (k : κ) : Nat :=
  (store.filter (fun x => key x = k)).length

/-- First row of a store with a given key. -/
def findKey {α κ : Type} [DecidableEq κ] (key : α → κ) (store : List α) (k : κ) :
    Option α :=
  store.find? (fun x => key x = k)

theorem countKey_append {α κ : Type} [DecidableEq κ] (key : α → κ) (s t : List α) (k : κ) :
    countKey key (s ++ t) k = countKey key s k + countKey key t k := by
  simp [countKey, List.filter_append]

theorem countKey_eq_zero {α κ : Type} [DecidableEq κ] (key : α → κ) (s : List α) (k : κ)
    (h : s.any (fun x => key x = k) = false) : countKey key s k = 0 := by
  rw [List.any_eq_false] at h
  rw [countKey, List.length_eq_zero, List.filter_eq_nil_iff]
  intro x hx
  exact h x hx

theorem find?_key_none {α κ : Type} [DecidableEq κ] (key : α → κ) (s : List α) (k : κ)
    (h : s.any (fun x => key x = k) = false) :
    s.find? (fun x => key x = k) = none := by
  rw [List.any_eq_false] at h
  rw [List.find?_eq_none]
  exact h

theorem countKey_map_replace {α κ : Type} [DecidableEq κ] (key : α → κ) (s : List α)
    (a : α) (k : κ) :
    countKey key (s.map (fun x => if key x = key a then a else x)) k =
      if key a = k then countKey key s k else countKey key s k := by
  induction s with
  | nil => simp
  | cons x xs ih =>
    by_cases hx : key x = key a
    · by_cases hk : key a = k <;>
        simp_all [countKey, List.filter_cons, hx, hk]
    · by_cases hxk : key x = k <;> by_cases hk : key a = k <;>
        simp_all [countKey, List.filter_cons, hx, hxk, hk]

/-- The single-row count of a singleton store. -/
theorem countKey_singleton {α κ : Type} [DecidableEq κ] (key : α → κ) (a : α) (k : κ) :
    countKey key [a] k = if key a = k then 1 else 0 := by
  by_cases hk : key a = k <;> simp [countKey, List.filter_cons, hk]

/-- An upsert never creates a second row for a key that had at most one
row. -/
theorem countKey_upsertBy_le_one {α κ : Type} [DecidableEq κ] (key : α → κ)
    (s : List α) (a : α) (k : κ) (h : countKey key s k ≤ 1) :
    countKey key (upsertBy key s a) k ≤ 1 := by
  rw [upsertBy]
  by_cases hmem : s.any (fun x => key x = key a)
  · rw [if_pos hmem, countKey_map_replace]
    split <;> exact h
  · rw [if_neg hmem, countKey_append, countKey_singleton]
    by_cases hk : key a = k
    · have h0 : countKey key s k = 0 := by
        apply countKey_eq_zero
        rw [List.any_eq_false]
        intro x hx hxk
        rw [Bool.not_eq_true] at hmem
        rw [List.any_eq_false] at hmem
        exact hmem x hx (by rw [hk]; exact hxk)
      simp [h0, hk]
    · simp [hk, h]

/-- After an upsert the store holds exactly one row for the upserted key
(when the store was well-formed for that key). -/
theorem countKey_upsertBy_self {α κ : Type} [DecidableEq κ] (key : α → κ)
    (s : List α) (a : α) (h : countKey key s (key a) ≤ 1) :
    countKey key (upsertBy key s a) (key a) = 1 := by
  rw [upsertBy]
  by_cases hmem : s.any (fun x => key x = key a)
  · rw [if_pos hmem, countKey_map_replace, if_pos rfl]
    rw [List.any_eq_true] at hmem
    obtain ⟨x, hx, hkx⟩ := hmem
    simp only [decide_eq_true_eq] at hkx
    have h1 : 1 ≤ countKey key s (key a) := by
      rw [countKey]
      have hmemf : x ∈ s.filter (fun x => key x = key a) := by
        rw [List.mem_filter]
        exact ⟨hx, by simp [hkx]⟩
      exact List.length_pos_of_mem hmemf
    omega
  · rw [if_neg hmem, countKey_append, countKey_singleton, if_pos rfl]
    have h0 : countKey key s (key a) = 0 :=
      countKey_eq_zero key s (key a) (by rwa [Bool.not_eq_true] at hmem)
    simp [h0]

/-- An upsert does not change the row count of any other key. -/
theorem countKey_upsertBy_ne {α κ : Type} [DecidableEq κ] (key : α → κ)
    (s : List α) (a : α) (k : κ) (h : ¬ key a = k) :
    countKey key (upsertBy key s a) k = countKey key s k := by
  rw [upsertBy]
  by_cases hmem : s.any (fun x => key x = key a)
  · rw [if_pos hmem, countKey_map_replace]
    split <;> rfl
  · rw [if_neg hmem, countKey_append, countKey_singleton, if_neg h]
    omega

/-- Replacing the rows of one key does not change what is found for a
different key. -/
theorem find?_map_replace {α κ : Type} [DecidableEq κ] (key : α → κ) (s : List α)
    (a : α) (k : κ) (h : ¬ k = key a) :
    (s.map (fun x => if key x = key a then a else x)).find? (fun x => key x = k) =
      s.find? (fun x => key x = k) := by
  induction s with
  | nil => rfl
  | cons x xs ih =>
    by_cases hx : key x = key a
    · have h1 : ¬ (key a = k) := fun hk => h hk.symm
      have h2 : ¬ (key x = k) := by rw [hx]; exact h1
      simp only [List.map_cons, if_pos hx, List.find?_cons]
      simp [h1, h2, ih]
    · simp only [List.map_cons, if_neg hx, List.find?_cons]
      by_cases hxk : key x = k
      · simp [hxk]
      · simp [hxk, ih]

/-- Upserting the same row twice is the same as upserting it once. -/
theorem upsertBy_idem {α κ : Type} [DecidableEq κ] (key : α → κ) (s : List α) (a : α) :
    upsertBy key (upsertBy key s a) a = upsertBy key s a := by
  have hany : (upsertBy key s a).any (fun x => key x = key a) = true := by
    rw [upsertBy]
    by_cases hmem : s.any (fun x => key x = key a)
    · rw [if_pos hmem, List.any_eq_true] at *
      obtain ⟨x, hx, hkx⟩ := hmem
      refine ⟨a, List.mem_map.mpr ⟨x, hx, ?_⟩, by simp⟩
      simp only [decide_eq_true_eq] at hkx
      rw [if_pos hkx]
    · rw [if_neg hmem, List.any_eq_true]
      exact ⟨a, by simp, by simp⟩
  rw [upsertBy, if_pos hany]
  rw [upsertBy]
  by_cases hmem : s.any (fun x => key x = key a)
  · rw [if_pos hmem, List.map_map]
    apply List.map_congr_left
    intro x _
    by_cases hx : key x = key a <;> simp [Function.comp, hx]
  · rw [if_neg hmem, List.map_append]
    have h1 : s.map (fun x => if key x = key a then a else x) = s := by
      conv_rhs => rw [← List.map_id s]
      apply List.map_congr_left
      intro x hx
      rw [Bool.not_eq_true, List.any_eq_false] at hmem
      rw [if_neg (by simpa using hmem x hx)]
      rfl
    simp [h1]

/-- An upsert leaves the rows of every other key untouched. -/
theorem findKey_upsertBy_ne {α κ : Type} [DecidableEq κ] (key : α → κ)
    (s : List α) (a : α) (k : κ) (h : ¬ k = key a) :
    findKey key (upsertBy key s a) k = findKey key s k := by
  rw [upsertBy]
  by_cases hmem : s.any (fun x => key x = key a)
  · rw [if_pos hmem, findKey, findKey]
    exact find?_map_replace key s a k h
  · rw [if_neg hmem, findKey, findKey, List.find?_append]
    have h1 : [a].find? (fun x => key x = k) = none := by
      apply find?_key_none
      simp only [List.any_cons, List.any_nil, Bool.or_false]
      simpa using fun hk => h hk.symm
    rw [h1]
    cases s.find? (fun x => decide (key x = k)) <;> rfl

/-- After an upsert the first row found for the upserted key is the new
row. -/
theorem findKey_upsertBy_self {α κ : Type} [DecidableEq κ] (key : α → κ)
    (s : List α) (a : α) :
    findKey key (upsertBy key s a) (key a) = some a := by
  rw [upsertBy]
  by_cases hmem : s.any (fun x => key x = key a)
  · rw [if_pos hmem, findKey]
    revert hmem
    induction s with
    | nil => intro hmem; simp at hmem
    | cons x xs ih =>
      intro hmem
      by_cases hx : key x = key a
      · simp [hx]
      · have hd : decide (key x = key a) = false := by simpa using hx
        simp only [List.map_cons, if_neg hx, List.find?_cons, hd]
        apply ih
        simp only [List.any_cons, Bool.or_eq_true] at hmem
        rcases hmem with h1 | h1
        · exact absurd (by simpa using h1) hx
        · exact h1
  · rw [if_neg hmem, findKey, List.find?_append]
    rw [find?_key_none key s (key a) (by rwa [Bool.not_eq_true] at hmem)]
    simp

/-! ### Dual-phase enricher -/

/-- Modelled from the spec: assembling one EnrichedRecord from the two
sub-results of the dual-phase enricher. -/
def joinEnrichment (name : String) (a : StructuredFetchResult)
    (b : ContentExtractionResult) : EnrichedRecord :=
  ⟨a.canonicalId, name, a.address, a.lat, a.lon, b.rating, b.priceLevel,
   a.category, b.attributes, b.rawContent⟩

/-- Modelled from the spec: the dual-phase enricher (implementation
absent from the repository; only documented as the parallel
structured-fetch and content-extraction tasks of `scrape_place`).  Both
subtasks are run against the same CanonicalId; the record is assembled
only when both succeed and agree on the CanonicalId, otherwise the call
fails with EnrichmentError. -/
def enrich (fetchA : CanonicalId → Except PipelineError StructuredFetchResult)
    (fetchB : CanonicalId → Except PipelineError ContentExtractionResult)
    (name : String) (cid : CanonicalId) : Except PipelineError EnrichedRecord :=
  match fetchA cid, fetchB cid with
  | .ok a, .ok b =>
      if a.canonicalId = b.canonicalId then .ok (joinEnrichment name a b)
      else .error .EnrichmentError
  | .error _, _ => .error .EnrichmentError
  | .ok _, .error _ => .error .EnrichmentError

/-! ### Dual-store writer -/

/-- Modelled from the spec: the relational store, rows keyed by
CanonicalId. -/
abbrev RelationalStore := List EnrichedRecord

/-- Modelled from the spec: the place-locality association rows, keyed
by the (CanonicalId, LocalityId) pair. -/
abbrev LinkStore := List (CanonicalId × String)

/-- Modelled from the spec: the semantic store, documents keyed by
(CanonicalId, sectionKind). -/
abbrev SemanticStore := List SummaryDoc

/-- The relational upsert of one place row (upsert-by-CanonicalId). -/
def upsertPlace (rel : RelationalStore) (r : EnrichedRecord) : RelationalStore :=
  upsertBy (fun x => x.canonicalId) rel r

/-- The association upsert (upsert-by-(CanonicalId, LocalityId)). -/
def upsertLink (links : LinkStore) (l : CanonicalId × String) : LinkStore :=
  upsertBy (fun x => x) links l

/-- The key of a semantic-store document. -/
def docKey (d : SummaryDoc) : CanonicalId × SectionKind :=
  (d.canonicalId, d.sectionKind)

/-- The semantic upsert of one document
(upsert-by-(CanonicalId, sectionKind)). -/
def upsertDoc (sem : SemanticStore) (d : SummaryDoc) : SemanticStore :=
  upsertBy docKey sem d

/-- Modelled from the spec: writing the four summary documents one by
one; an injected per-document failure (`ok` false) aborts the remaining
documents and reports PartialWriteError. -/
def writeDocs (ok : CanonicalId → SectionKind → Bool) :
    SemanticStore → List SummaryDoc → SemanticStore × Option PipelineError
  | sem, [] => (sem, none)
  | sem, d :: ds =>
      if ok d.canonicalId d.sectionKind then writeDocs ok (upsertDoc sem d) ds
      else (sem, some .PartialWriteError)

/-- The three stores the writer touches. -/
structure Stores where
  rel : RelationalStore
  links : LinkStore
  sem : SemanticStore
  deriving Repr

/-- Modelled from the spec: the dual-store writer.  In order: (a) the
relational upsert, (b) the locality-association upserts, (c) the four
SummaryDoc upserts; a semantic failure after the relational write
reports PartialWriteError. -/
def writeRecord (localities : CanonicalId → List String)
    (ok : CanonicalId → SectionKind → Bool) (st : Stores) (r : EnrichedRecord)
    (s : Summaries) : Stores × Option PipelineError :=
  let rel1 := upsertPlace st.rel r
  let links1 := (localities r.canonicalId).foldl
    (fun ls lid => upsertLink ls (r.canonicalId, lid)) st.links
  match writeDocs ok st.sem (summaryDocs r.canonicalId s) with
  | (sem1, none) => (⟨rel1, links1, sem1⟩, none)
  | (sem1, some e) => (⟨rel1, links1, sem1⟩, some e)

/-! ### Checkpoint store -/

/-- Modelled from the spec: the durable checkpoint store, entries keyed
by externalRef and upserted (updated, never appended twice). -/
abbrev CheckpointStore := List CheckpointEntry

/-- Point lookup of a checkpoint entry by externalRef. -/
def lookupCP (store : CheckpointStore) (ref : ExternalRef) : Option CheckpointEntry :=
  findKey (fun e => e.externalRef) store ref

/-- Modelled from the spec: `record(externalRef, canonicalId?, status)`
upserts an entry with the current timestamp; durable before
returning. -/
def recordCP (store : CheckpointStore) (ref : ExternalRef) (cid : Option CanonicalId)
    (status : CPStatus) (now : Nat) : CheckpointStore :=
  upsertBy (fun e => e.externalRef) store ⟨ref, cid, now, status⟩

/-- Modelled from the spec: `isFresh(externalRef, maxAge)` — true if an
entry exists with status success and `now - lastProcessedAt < maxAge`. -/
def isFresh (store : CheckpointStore) (ref : ExternalRef) (maxAge now : Nat) : Bool :=
  match lookupCP store ref with
  | some e => e.status == .success && decide (now - e.lastProcessedAt < maxAge)
  | none => false

/-! ### Ingestion coordinator -/

/-- Modelled from the spec: the injected capabilities and configuration
of one pipeline run (resolver, the two enrichment fetches, summarizer,
locality derivation, semantic-write failure injection, clock and
staleness threshold). -/
structure Env where
  resolve : InputRecord → Except PipelineError CanonicalId
  fetchA : CanonicalId → Except PipelineError StructuredFetchResult
  fetchB : CanonicalId → Except PipelineError ContentExtractionResult
  summarize : String → Except PipelineError Summaries
  localities : CanonicalId → List String
  semanticOk : CanonicalId → SectionKind → Bool
  now : Nat
  maxAge : Nat

/-- Modelled from the spec: a structured log entry for a failed record,
carrying the externalRef, the stage and the cause. -/
structure LogEntry where
  externalRef : ExternalRef
  stage : Stage
  cause : PipelineError
  deriving DecidableEq, Repr

/-- Result of one scheduled record pipeline: the updated stores, the
resolved CanonicalId (if resolution succeeded), the outcome, and how
many resolution / enrichment / write calls were made. -/
structure RecordResult where
  stores : Stores
  canonicalId : Option CanonicalId
  outcome : Except (Stage × PipelineError) Unit
  resolveCalls : Nat
  enrichCalls : Nat
  writeCalls : Nat

/-- Modelled from the spec: the pipeline of one record once scheduled —
resolve, then the dual-phase enrichment, then summarize, then the
dual-store write; the first failure aborts the remaining stages of this record. -/
def runRecord (env : Env) (st : Stores) (rec : InputRecord) : RecordResult :=
  match env.resolve rec with
  | .error e => ⟨st, none, .error (.resolving, e), 1, 0, 0⟩
  | .ok cid =>
    match enrich env.fetchA env.fetchB rec.name cid with
    | .error e => ⟨st, some cid, .error (.enriching, e), 1, 1, 0⟩
    | .ok er =>
      match env.summarize er.rawContent with
      | .error e => ⟨st, some cid, .error (.summarizing, e), 1, 1, 0⟩
      | .ok sums =>
        match writeRecord env.localities env.semanticOk st er sums with
        | (st1, none) => ⟨st1, some cid, .ok (), 1, 1, 1⟩
        | (st1, some e) => ⟨st1, some cid, .error (.writing, e), 1, 1, 1⟩

/-- The mutable state of one batch run: checkpoint store, the two data
stores, the error log, call counters and outcome counters. -/
structure RunState where
  checkpoints : CheckpointStore
  stores : Stores
  errorLog : List LogEntry
  resolveCalls : Nat
  enrichCalls : Nat
  writeCalls : Nat
  skippedCount : Nat
  succeededCount : Nat
  failedCount : Nat

/-- Modelled from the spec: how the coordinator handles one input
record — skip it when fresh, otherwise run its pipeline, catch any
error at the per-record boundary, convert it into a failed checkpoint
plus a structured log entry, and checkpoint success immediately after a
successful write. -/
def processOne (env : Env) (s : RunState) (rec : InputRecord) : RunState :=
  if isFresh s.checkpoints rec.externalRef env.maxAge env.now then
    { s with skippedCount := s.skippedCount + 1 }
  else
    let r := runRecord env s.stores rec
    match r.outcome with
    | .ok _ =>
      { checkpoints := recordCP s.checkpoints rec.externalRef r.canonicalId .success env.now
        stores := r.stores
        errorLog := s.errorLog
        resolveCalls := s.resolveCalls + r.resolveCalls
        enrichCalls := s.enrichCalls + r.enrichCalls
        writeCalls := s.writeCalls + r.writeCalls
        skippedCount := s.skippedCount
        succeededCount := s.succeededCount + 1
        failedCount := s.failedCount }
    | .error (stage, e) =>
      { checkpoints := recordCP s.checkpoints rec.externalRef r.canonicalId .failed env.now
        stores := r.stores
        errorLog := s.errorLog ++ [⟨rec.externalRef, stage, e⟩]
        resolveCalls := s.resolveCalls + r.resolveCalls
        enrichCalls := s.enrichCalls + r.enrichCalls
        writeCalls := s.writeCalls + r.writeCalls
        skippedCount := s.skippedCount
        succeededCount := s.succeededCount
        failedCount := s.failedCount + 1 }

/-- Modelled from the spec: the batch run of the coordinator over the input
records. -/
def processBatch (env : Env) (s : RunState) (recs : List InputRecord) : RunState :=
  recs.foldl (processOne env) s

/-! ### Theorems for the enricher claims -/

/-- Claim C1: `enrich` consumes both acquisition subtasks and returns an
EnrichedRecord only when both complete successfully; if either subtask
fails the call fails with EnrichmentError, and a partial record is never
returned. -/
theorem enrich_requires_both_subtasks :
    (∀ (fetchA : CanonicalId → Except PipelineError StructuredFetchResult)
       (fetchB : CanonicalId → Except PipelineError ContentExtractionResult)
       (name : String) (cid : CanonicalId) (r : EnrichedRecord),
      enrich fetchA fetchB name cid = .ok r →
        ∃ a b, fetchA cid = .ok a ∧ fetchB cid = .ok b ∧
          a.canonicalId = b.canonicalId ∧ r = joinEnrichment name a b) ∧
    (∀ (fetchA : CanonicalId → Except PipelineError StructuredFetchResult)
       (fetchB : CanonicalId → Except PipelineError ContentExtractionResult)
       (name : String) (cid : CanonicalId),
      ((∃ e, fetchA cid = .error e) ∨ (∃ e, fetchB cid = .error e)) →
        enrich fetchA fetchB name cid = .error .EnrichmentError) := by
  constructor
  · intro fa fb name cid r h
    cases hA : fa cid with
    | error e => simp [enrich, hA] at h
    | ok a =>
      cases hB : fb cid with
      | error e => simp [enrich, hA, hB] at h
      | ok b =>
        simp only [enrich, hA, hB] at h
        by_cases hid : a.canonicalId = b.canonicalId
        · rw [if_pos hid] at h
          exact ⟨a, b, rfl, rfl, hid, (Except.ok.inj h).symm⟩
        · rw [if_neg hid] at h
          exact absurd h (by simp)
  · intro fa fb name cid h
    rcases h with ⟨e, he⟩ | ⟨e, he⟩
    · simp [enrich, he]
    · cases hA : fa cid with
      | error e2 => simp [enrich, hA]
      | ok a => simp [enrich, hA, he]

/-- Witness for C1: with a failing content-extraction subtask the call
fails with EnrichmentError. -/
theorem enrich_requires_both_subtasks_witness :
    enrich (fun _ => .ok ⟨"cid1", "addr", 1, 2, "cafe"⟩)
      (fun _ => .error .EnrichmentError) "A" "cid1" = .error .EnrichmentError :=
  enrich_requires_both_subtasks.2 (fun _ => .ok ⟨"cid1", "addr", 1, 2, "cafe"⟩)
    (fun _ => .error .EnrichmentError) "A" "cid1" (Or.inr ⟨.EnrichmentError, rfl⟩)

/-- Claim C6: both sub-results of every assembled EnrichedRecord
reference the same CanonicalId, and a mismatch makes the join fail with
EnrichmentError instead of silently merging. -/
theorem enrich_join_canonicalId_agrees :
    (∀ (fetchA : CanonicalId → Except PipelineError StructuredFetchResult)
       (fetchB : CanonicalId → Except PipelineError ContentExtractionResult)
       (name : String) (cid : CanonicalId) (a : StructuredFetchResult)
       (b : ContentExtractionResult),
      fetchA cid = .ok a → fetchB cid = .ok b → ¬ a.canonicalId = b.canonicalId →
        enrich fetchA fetchB name cid = .error .EnrichmentError) ∧
    (∀ (fetchA : CanonicalId → Except PipelineError StructuredFetchResult)
       (fetchB : CanonicalId → Except PipelineError ContentExtractionResult)
       (name : String) (cid : CanonicalId) (r : EnrichedRecord),
      enrich fetchA fetchB name cid = .ok r →
        ∃ a b, fetchA cid = .ok a ∧ fetchB cid = .ok b ∧
          a.canonicalId = b.canonicalId ∧ r.canonicalId = a.canonicalId) := by
  constructor
  · intro fa fb name cid a b hA hB hne
    simp [enrich, hA, hB, hne]
  · intro fa fb name cid r h
    cases hA : fa cid with
    | error e => simp [enrich, hA] at h
    | ok a =>
      cases hB : fb cid with
      | error e => simp [enrich, hA, hB] at h
      | ok b =>
        simp only [enrich, hA, hB] at h
        by_cases hid : a.canonicalId = b.canonicalId
        · rw [if_pos hid] at h
          refine ⟨a, b, rfl, rfl, hid, ?_⟩
          rw [← Except.ok.inj h]
          rfl
        · rw [if_neg hid] at h
          exact absurd h (by simp)

/-- Witness for C6: an injected resolver pair returning different ids
makes the join raise EnrichmentError. -/
theorem enrich_join_canonicalId_agrees_witness :
    enrich (fun _ => .ok ⟨"cid1", "addr", 1, 2, "cafe"⟩)
      (fun _ => .ok ⟨"cid2", [], 4, "$$", "raw"⟩) "A" "cid1" =
      .error .EnrichmentError :=
  enrich_join_canonicalId_agrees.1 (fun _ => .ok ⟨"cid1", "addr", 1, 2, "cafe"⟩)
    (fun _ => .ok ⟨"cid2", [], 4, "$$", "raw"⟩) "A" "cid1"
    ⟨"cid1", "addr", 1, 2, "cafe"⟩ ⟨"cid2", [], 4, "$$", "raw"⟩ rfl rfl (by decide)

/-! ### Theorems for the summarizer and writer claims -/

/-- A document batch written without failure is the fold of the
per-document upserts. -/
theorem writeDocs_none_eq_foldl (ok : CanonicalId → SectionKind → Bool) :
    ∀ (docs : List SummaryDoc) (sem sem1 : SemanticStore),
      writeDocs ok sem docs = (sem1, none) → sem1 = docs.foldl upsertDoc sem := by
  intro docs
  induction docs with
  | nil =>
    intro sem sem1 h
    rw [writeDocs] at h
    simp only [Prod.mk.injEq] at h
    simp [h.1]
  | cons d ds ih =>
    intro sem sem1 h
    rw [writeDocs] at h
    by_cases hok : ok d.canonicalId d.sectionKind
    · rw [if_pos hok] at h
      rw [List.foldl_cons]
      exact ih _ _ h
    · rw [if_neg hok] at h
      simp at h

/-- Claim C7: `summarize` output has exactly the four named sections and
a successfully written record holds exactly one SummaryDoc per
sectionKind in the semantic store. -/
theorem summarizer_four_sections :
    (∀ (cid : CanonicalId) (s : Summaries),
      (summaryDocs cid s).length = 4 ∧
      (summaryDocs cid s).map (fun d => d.sectionKind) =
        [.description, .atmosphere, .offerings, .features] ∧
      ∀ d ∈ summaryDocs cid s, d.canonicalId = cid) ∧
    (∀ (localities : CanonicalId → List String) (ok : CanonicalId → SectionKind → Bool)
       (st : Stores) (r : EnrichedRecord) (s : Summaries) (st1 : Stores),
      (∀ k : SectionKind, countKey docKey st.sem (r.canonicalId, k) ≤ 1) →
      writeRecord localities ok st r s = (st1, none) →
        ∀ k : SectionKind, countKey docKey st1.sem (r.canonicalId, k) = 1) := by
  constructor
  · intro cid s
    refine ⟨rfl, rfl, ?_⟩
    intro d hd
    simp only [summaryDocs, Summaries.sections, List.map_cons, List.map_nil,
      List.mem_cons, List.not_mem_nil, or_false] at hd
    rcases hd with rfl | rfl | rfl | rfl <;> rfl
  · intro localities ok st r s st1 hwf hw
    have hsem : st1.sem = (summaryDocs r.canonicalId s).foldl upsertDoc st.sem := by
      simp only [writeRecord] at hw
      cases hwd : writeDocs ok st.sem (summaryDocs r.canonicalId s) with
      | mk sem1 err =>
        cases err with
        | none =>
          rw [hwd] at hw
          injection hw with h1 h2
          rw [← h1]
          exact writeDocs_none_eq_foldl ok _ _ _ hwd
        | some e =>
          rw [hwd] at hw
          simp at hw
    intro k
    rw [hsem]
    simp only [summaryDocs, Summaries.sections, List.map_cons, List.map_nil,
      List.foldl_cons, List.foldl_nil, upsertDoc]
    cases k with
    | description =>
      rw [countKey_upsertBy_ne _ _ _ _ (by simp [docKey]),
        countKey_upsertBy_ne _ _ _ _ (by simp [docKey]),
        countKey_upsertBy_ne _ _ _ _ (by simp [docKey])]
      exact countKey_upsertBy_self _ _ _ (hwf .description)
    | atmosphere =>
      rw [countKey_upsertBy_ne _ _ _ _ (by simp [docKey]),
        countKey_upsertBy_ne _ _ _ _ (by simp [docKey])]
      refine countKey_upsertBy_self _ _ _ ?_
      rw [show (docKey ⟨r.canonicalId, SectionKind.atmosphere, s.atmosphere⟩) =
        (r.canonicalId, SectionKind.atmosphere) from rfl]
      rw [countKey_upsertBy_ne _ _ _ _ (by simp [docKey])]
      exact hwf .atmosphere
    | offerings =>
      rw [countKey_upsertBy_ne _ _ _ _ (by simp [docKey])]
      refine countKey_upsertBy_self _ _ _ ?_
      rw [show (docKey ⟨r.canonicalId, SectionKind.offerings, s.offerings⟩) =
        (r.canonicalId, SectionKind.offerings) from rfl]
      rw [countKey_upsertBy_ne _ _ _ _ (by simp [docKey]),
        countKey_upsertBy_ne _ _ _ _ (by simp [docKey])]
      exact hwf .offerings
    | features =>
      refine countKey_upsertBy_self _ _ _ ?_
      rw [show (docKey ⟨r.canonicalId, SectionKind.features, s.features⟩) =
        (r.canonicalId, SectionKind.features) from rfl]
      rw [countKey_upsertBy_ne _ _ _ _ (by simp [docKey]),
        countKey_upsertBy_ne _ _ _ _ (by simp [docKey]),
        countKey_upsertBy_ne _ _ _ _ (by simp [docKey])]
      exact hwf .features

/-- Witness for C7: writing one concrete record into empty stores
leaves exactly one document per section kind. -/
theorem summarizer_four_sections_witness :
    ∀ k : SectionKind,
      countKey docKey
        (writeRecord (fun _ => []) (fun _ _ => true) ⟨[], [], []⟩
          ⟨"c1", "A", "addr", 1, 2, 4, "$$", "cafe", [], "raw"⟩
          ⟨"d", "a", "o", "f"⟩).1.sem ("c1", k) = 1 :=
  summarizer_four_sections.2 (fun _ => []) (fun _ _ => true) ⟨[], [], []⟩
    ⟨"c1", "A", "addr", 1, 2, 4, "$$", "cafe", [], "raw"⟩ ⟨"d", "a", "o", "f"⟩
    (writeRecord (fun _ => []) (fun _ _ => true) ⟨[], [], []⟩
      ⟨"c1", "A", "addr", 1, 2, 4, "$$", "cafe", [], "raw"⟩ ⟨"d", "a", "o", "f"⟩).1
    (by intro k; cases k <;> decide) rfl

/-- The error component of a record write is the error component of its
semantic-document batch. -/
theorem writeRecord_snd (localities : CanonicalId → List String)
    (ok : CanonicalId → SectionKind → Bool) (st : Stores) (r : EnrichedRecord)
    (s : Summaries) :
    (writeRecord localities ok st r s).2 =
      (writeDocs ok st.sem (summaryDocs r.canonicalId s)).2 := by
  simp only [writeRecord]
  cases hwd : writeDocs ok st.sem (summaryDocs r.canonicalId s) with
  | mk sem1 err => cases err <;> rfl

/-- The outcome of the semantic batch of one record: no error when all
four sections are accepted, PartialWriteError otherwise. -/
theorem writeDocs_summaryDocs_outcome (ok : CanonicalId → SectionKind → Bool)
    (sem : SemanticStore) (cid : CanonicalId) (s : Summaries) :
    (writeDocs ok sem (summaryDocs cid s)).2 =
      if ok cid .description && ok cid .atmosphere && ok cid .offerings &&
          ok cid .features then none
      else some .PartialWriteError := by
  simp only [summaryDocs, Summaries.sections, List.map_cons, List.map_nil]
  by_cases h1 : ok cid .description <;> by_cases h2 : ok cid .atmosphere <;>
    by_cases h3 : ok cid .offerings <;> by_cases h4 : ok cid .features <;>
      simp [writeDocs, h1, h2, h3, h4]

/-- Coordinator bookkeeping for a record whose pipeline failed:
checkpoint upserted as failed and one structured log entry appended. -/
theorem processOne_failed (env : Env) (s : RunState) (rec : InputRecord)
    (stage : Stage) (e : PipelineError)
    (hfresh : isFresh s.checkpoints rec.externalRef env.maxAge env.now = false)
    (hout : (runRecord env s.stores rec).outcome = .error (stage, e)) :
    (processOne env s rec).checkpoints =
      recordCP s.checkpoints rec.externalRef (runRecord env s.stores rec).canonicalId
        .failed env.now ∧
    (processOne env s rec).errorLog = s.errorLog ++ [⟨rec.externalRef, stage, e⟩] := by
  simp only [processOne, hfresh, Bool.false_eq_true, if_false, hout]
  constructor <;> trivial

/-- A checkpoint upsert is found by its own key. -/
theorem lookupCP_recordCP_self (store : CheckpointStore) (ref : ExternalRef)
    (cid : Option CanonicalId) (status : CPStatus) (now : Nat) :
    lookupCP (recordCP store ref cid status now) ref = some ⟨ref, cid, now, status⟩ := by
  rw [lookupCP, recordCP]
  exact findKey_upsertBy_self (fun e : CheckpointEntry => e.externalRef) store
    ⟨ref, cid, now, status⟩

/-- A checkpoint upsert leaves every other entry unchanged. -/
theorem lookupCP_recordCP_ne (store : CheckpointStore) (ref ref2 : ExternalRef)
    (cid : Option CanonicalId) (status : CPStatus) (now : Nat) (h : ¬ ref2 = ref) :
    lookupCP (recordCP store ref cid status now) ref2 = lookupCP store ref2 := by
  rw [lookupCP, recordCP, lookupCP]
  exact findKey_upsertBy_ne (fun e : CheckpointEntry => e.externalRef) store
    ⟨ref, cid, now, status⟩ ref2 h

/-- Claim C2: the writer performs the relational upsert and the
association upserts regardless of the semantic outcome; an injected
semantic failure reports PartialWriteError and the coordinator marks the
checkpoint failed; and the relational upsert is idempotent, so a re-run
creates no duplicate relational row. -/
theorem dual_store_writer_failure_policy :
    (∀ (localities : CanonicalId → List String) (ok : CanonicalId → SectionKind → Bool)
       (st : Stores) (r : EnrichedRecord) (s : Summaries),
      (writeRecord localities ok st r s).1.rel = upsertPlace st.rel r ∧
      (writeRecord localities ok st r s).1.links =
        (localities r.canonicalId).foldl
          (fun ls lid => upsertLink ls (r.canonicalId, lid)) st.links) ∧
    (∀ (localities : CanonicalId → List String) (ok : CanonicalId → SectionKind → Bool)
       (st : Stores) (r : EnrichedRecord) (s : Summaries),
      (∃ k, ok r.canonicalId k = false) →
        (writeRecord localities ok st r s).2 = some .PartialWriteError) ∧
    (∀ (env : Env) (s : RunState) (rec : InputRecord) (e : PipelineError),
      isFresh s.checkpoints rec.externalRef env.maxAge env.now = false →
      (runRecord env s.stores rec).outcome = .error (.writing, e) →
        ∃ entry, lookupCP (processOne env s rec).checkpoints rec.externalRef =
          some entry ∧ entry.status = .failed) ∧
    (∀ (rel : RelationalStore) (r : EnrichedRecord),
      upsertPlace (upsertPlace rel r) r = upsertPlace rel r) ∧
    (∀ (rel : RelationalStore) (r : EnrichedRecord),
      countKey (fun x => x.canonicalId) rel r.canonicalId ≤ 1 →
        countKey (fun x => x.canonicalId) (upsertPlace (upsertPlace rel r) r)
          r.canonicalId = 1) := by
  refine ⟨?_, ?_, ?_, ?_, ?_⟩
  · intro localities ok st r s
    simp only [writeRecord]
    cases hwd : writeDocs ok st.sem (summaryDocs r.canonicalId s) with
    | mk sem1 err => cases err <;> exact ⟨rfl, rfl⟩
  · intro localities ok st r s hex
    rcases hex with ⟨k, hk⟩
    rw [writeRecord_snd, writeDocs_summaryDocs_outcome, if_neg]
    intro hcond
    simp only [Bool.and_eq_true] at hcond
    cases k with
    | description => rw [hcond.1.1.1] at hk; exact Bool.true_eq_false ▸ hk
    | atmosphere => rw [hcond.1.1.2] at hk; exact Bool.true_eq_false ▸ hk
    | offerings => rw [hcond.1.2] at hk; exact Bool.true_eq_false ▸ hk
    | features => rw [hcond.2] at hk; exact Bool.true_eq_false ▸ hk
  · intro env s rec e hfresh hout
    rw [(processOne_failed env s rec .writing e hfresh hout).1, lookupCP_recordCP_self]
    exact ⟨_, rfl, rfl⟩
  · intro rel r
    exact upsertBy_idem (fun x => x.canonicalId) rel r
  · intro rel r h
    rw [upsertPlace, upsertPlace, upsertBy_idem]
    exact countKey_upsertBy_self (fun x => x.canonicalId) rel r h

/-- Witness for C2: a semantic store that rejects the features section
makes the write report PartialWriteError, while upserting the same
record twice into an empty relational store leaves one row. -/
theorem dual_store_writer_failure_policy_witness :
    (writeRecord (fun _ => []) (fun _ k => !(k == SectionKind.features)) ⟨[], [], []⟩
      ⟨"c1", "A", "addr", 1, 2, 4, "$$", "cafe", [], "raw"⟩
      ⟨"d", "a", "o", "f"⟩).2 = some .PartialWriteError ∧
    countKey (fun x => x.canonicalId)
      (upsertPlace (upsertPlace [] ⟨"c1", "A", "addr", 1, 2, 4, "$$", "cafe", [], "raw"⟩)
        ⟨"c1", "A", "addr", 1, 2, 4, "$$", "cafe", [], "raw"⟩) "c1" = 1 :=
  ⟨dual_store_writer_failure_policy.2.1 (fun _ => [])
      (fun _ k => !(k == SectionKind.features)) ⟨[], [], []⟩
      ⟨"c1", "A", "addr", 1, 2, 4, "$$", "cafe", [], "raw"⟩ ⟨"d", "a", "o", "f"⟩
      ⟨SectionKind.features, rfl⟩,
    dual_store_writer_failure_policy.2.2.2.2 []
      ⟨"c1", "A", "addr", 1, 2, 4, "$$", "cafe", [], "raw"⟩ (by decide)⟩

/-! ### Theorems for the coordinator claims -/

/-- Skipping a fresh record changes nothing but the skip counter. -/
theorem processOne_skip (env : Env) (s : RunState) (rec : InputRecord)
    (h : isFresh s.checkpoints rec.externalRef env.maxAge env.now = true) :
    processOne env s rec = { s with skippedCount := s.skippedCount + 1 } := by
  simp [processOne, h]

/-- Claim C4: `isFresh` holds exactly when a success entry younger than
the threshold exists, and a run over a batch in which every record is
fresh performs zero resolution, enrichment, and write calls — every
record is skipped. -/
theorem fresh_second_run_skips_everything :
    (∀ (store : CheckpointStore) (ref : ExternalRef) (maxAge now : Nat),
      isFresh store ref maxAge now = true ↔
        ∃ e, lookupCP store ref = some e ∧ e.status = .success ∧
          now - e.lastProcessedAt < maxAge) ∧
    (∀ (env : Env) (s : RunState) (recs : List InputRecord),
      (∀ rec ∈ recs, ∃ e, lookupCP s.checkpoints rec.externalRef = some e ∧
          e.status = .success ∧ env.now - e.lastProcessedAt < env.maxAge) →
        processBatch env s recs = { s with skippedCount := s.skippedCount + recs.length } ∧
        (processBatch env s recs).resolveCalls = s.resolveCalls ∧
        (processBatch env s recs).enrichCalls = s.enrichCalls ∧
        (processBatch env s recs).writeCalls = s.writeCalls) := by
  have hiff : ∀ (store : CheckpointStore) (ref : ExternalRef) (maxAge now : Nat),
      isFresh store ref maxAge now = true ↔
        ∃ e, lookupCP store ref = some e ∧ e.status = .success ∧
          now - e.lastProcessedAt < maxAge := by
    intro store ref maxAge now
    rw [isFresh]
    cases hl : lookupCP store ref with
    | none => simp
    | some e =>
      simp only [Bool.and_eq_true, beq_iff_eq, decide_eq_true_eq, Option.some_inj]
      constructor
      · intro h
        exact ⟨e, rfl, h.1, h.2⟩
      · rintro ⟨e2, rfl, h1, h2⟩
        exact ⟨h1, h2⟩
  refine ⟨hiff, ?_⟩
  have hbatch : ∀ (env : Env) (recs : List InputRecord) (s : RunState),
      (∀ rec ∈ recs, ∃ e, lookupCP s.checkpoints rec.externalRef = some e ∧
          e.status = .success ∧ env.now - e.lastProcessedAt < env.maxAge) →
        processBatch env s recs =
          { s with skippedCount := s.skippedCount + recs.length } := by
    intro env recs
    induction recs with
    | nil =>
      intro s _
      rw [processBatch, List.foldl_nil]
      cases s
      simp
    | cons rec recs ih =>
      intro s h
      have hf : isFresh s.checkpoints rec.externalRef env.maxAge env.now = true :=
        (hiff s.checkpoints rec.externalRef env.maxAge env.now).mpr (h rec (by simp))
      rw [processBatch, List.foldl_cons, processOne_skip env s rec hf]
      have hrest := ih { s with skippedCount := s.skippedCount + 1 }
        (fun r hr => h r (List.mem_cons_of_mem rec hr))
      rw [processBatch] at hrest
      rw [hrest, List.length_cons,
        show s.skippedCount + 1 + recs.length = s.skippedCount + (recs.length + 1) from by
          omega]
  intro env s recs h
  refine ⟨hbatch env recs s h, ?_, ?_, ?_⟩ <;> rw [hbatch env recs s h]

/-- Witness for C4: a batch of one record whose checkpoint entry is a
recent success is skipped entirely. -/
theorem fresh_second_run_skips_everything_witness :
    processBatch
      ⟨fun _ => .error .ResolutionError, fun _ => .error .EnrichmentError,
        fun _ => .error .EnrichmentError, fun _ => .error .SummarizationError,
        fun _ => [], fun _ _ => true, 10, 30⟩
      ⟨[⟨"r1", some "c1", 5, .success⟩], ⟨[], [], []⟩, [], 0, 0, 0, 0, 0, 0⟩
      [⟨"A", "r1"⟩] =
      { (⟨[⟨"r1", some "c1", 5, .success⟩], ⟨[], [], []⟩, [], 0, 0, 0, 0, 0, 0⟩ : RunState)
        with skippedCount := 0 + 1 } :=
  (fresh_second_run_skips_everything.2
    ⟨fun _ => .error .ResolutionError, fun _ => .error .EnrichmentError,
      fun _ => .error .EnrichmentError, fun _ => .error .SummarizationError,
      fun _ => [], fun _ _ => true, 10, 30⟩
    ⟨[⟨"r1", some "c1", 5, .success⟩], ⟨[], [], []⟩, [], 0, 0, 0, 0, 0, 0⟩
    [⟨"A", "r1"⟩]
    (by
      intro rec hrec
      simp only [List.mem_singleton] at hrec
      subst hrec
      exact ⟨⟨"r1", some "c1", 5, .success⟩, by decide, rfl, by decide⟩)).1

/-- Every handled record moves exactly one of the three outcome
counters, regardless of errors. -/
theorem processOne_total (env : Env) (s : RunState) (rec : InputRecord) :
    (processOne env s rec).skippedCount + (processOne env s rec).succeededCount +
      (processOne env s rec).failedCount =
    s.skippedCount + s.succeededCount + s.failedCount + 1 := by
  by_cases hf : isFresh s.checkpoints rec.externalRef env.maxAge env.now
  · rw [processOne_skip env s rec hf]
    dsimp only
    omega
  · rw [Bool.not_eq_true] at hf
    cases hout : (runRecord env s.stores rec).outcome with
    | ok u =>
      simp only [processOne, hf, Bool.false_eq_true, if_false, hout]
      omega
    | error p =>
      cases p with
      | mk stage e =>
        simp only [processOne, hf, Bool.false_eq_true, if_false, hout]
        omega

/-- Claim C5: an error at any stage of the pipeline of one record is caught
at the per-record boundary, recorded as a failed checkpoint plus a
structured log entry with externalRef, stage and cause, leaves every
other checkpoint entry untouched, and never aborts the rest of the
batch. -/
theorem per_record_failure_isolation :
    (∀ (env : Env) (s : RunState) (rec : InputRecord) (stage : Stage)
       (e : PipelineError),
      isFresh s.checkpoints rec.externalRef env.maxAge env.now = false →
      (runRecord env s.stores rec).outcome = .error (stage, e) →
        (∃ entry, lookupCP (processOne env s rec).checkpoints rec.externalRef =
            some entry ∧ entry.status = .failed) ∧
        (processOne env s rec).errorLog = s.errorLog ++ [⟨rec.externalRef, stage, e⟩] ∧
        (∀ ref, ¬ ref = rec.externalRef →
          lookupCP (processOne env s rec).checkpoints ref = lookupCP s.checkpoints ref)) ∧
    (∀ (env : Env) (s : RunState) (recs : List InputRecord),
      (processBatch env s recs).skippedCount + (processBatch env s recs).succeededCount +
          (processBatch env s recs).failedCount =
        s.skippedCount + s.succeededCount + s.failedCount + recs.length) := by
  constructor
  · intro env s rec stage e hfresh hout
    obtain ⟨hcp, hlog⟩ := processOne_failed env s rec stage e hfresh hout
    refine ⟨⟨_, by rw [hcp, lookupCP_recordCP_self], rfl⟩, hlog, ?_⟩
    intro ref hne
    rw [hcp, lookupCP_recordCP_ne _ _ _ _ _ _ hne]
  · intro env s recs
    induction recs generalizing s with
    | nil =>
      rw [processBatch, List.foldl_nil, List.length_nil]
      omega
    | cons rec recs ih =>
      rw [processBatch, List.foldl_cons, List.length_cons]
      have h1 := processOne_total env s rec
      have h2 := ih (processOne env s rec)
      rw [processBatch] at h2
      omega

/-- Witness for C5: a record whose resolution fails leaves one failed
checkpoint and one structured log entry. -/
theorem per_record_failure_isolation_witness :
    (processOne
      ⟨fun _ => .error .ResolutionError, fun _ => .error .EnrichmentError,
        fun _ => .error .EnrichmentError, fun _ => .error .SummarizationError,
        fun _ => [], fun _ _ => true, 10, 30⟩
      ⟨[], ⟨[], [], []⟩, [], 0, 0, 0, 0, 0, 0⟩ ⟨"A", "r1"⟩).errorLog =
      [] ++ [⟨"r1", .resolving, .ResolutionError⟩] :=
  (per_record_failure_isolation.1
    ⟨fun _ => .error .ResolutionError, fun _ => .error .EnrichmentError,
      fun _ => .error .EnrichmentError, fun _ => .error .SummarizationError,
      fun _ => [], fun _ _ => true, 10, 30⟩
    ⟨[], ⟨[], [], []⟩, [], 0, 0, 0, 0, 0, 0⟩ ⟨"A", "r1"⟩ .resolving
    .ResolutionError rfl rfl).2.1

/-! ### Event-trace model for checkpoint durability -/

/-- Modelled from the spec: the observable events of a batch run, used
to state when checkpoints become durable relative to the other steps. -/
inductive Event
  | skippedEv (ref : ExternalRef)
  | resolvedEv (ref : ExternalRef)
  | enrichedEv (ref : ExternalRef)
  | summarizedEv (ref : ExternalRef)
  | wroteEv (ref : ExternalRef)
  | checkpointedEv (ref : ExternalRef) (cid : Option CanonicalId) (status : CPStatus)
      (time : Nat)
  deriving DecidableEq, Repr

/-- The per-stage events the pipeline of one record emits before its
checkpoint event, as far as it got. -/
def stageEvents (ref : ExternalRef) : Except (Stage × PipelineError) Unit → List Event
  | .ok _ => [.resolvedEv ref, .enrichedEv ref, .summarizedEv ref, .wroteEv ref]
  | .error (.resolving, _) => []
  | .error (.enriching, _) => [.resolvedEv ref]
  | .error (.summarizing, _) => [.resolvedEv ref, .enrichedEv ref]
  | .error (.writing, _) => [.resolvedEv ref, .enrichedEv ref, .summarizedEv ref]

/-- The checkpoint status a record outcome is recorded with. -/
def statusOf : Except (Stage × PipelineError) Unit → CPStatus
  | .ok _ => .success
  | .error _ => .failed

/-- Modelled from the spec: the events of the coordinator handling one
record — its checkpoint event directly follows the final
step. -/
def recordEvents (env : Env) (s : RunState) (rec : InputRecord) : List Event :=
  if isFresh s.checkpoints rec.externalRef env.maxAge env.now then
    [.skippedEv rec.externalRef]
  else
    let r := runRecord env s.stores rec
    stageEvents rec.externalRef r.outcome ++
      [.checkpointedEv rec.externalRef r.canonicalId (statusOf r.outcome) env.now]

/-- Modelled from the spec: the full event trace of a batch run. -/
def runTrace (env : Env) (s : RunState) : List InputRecord → List Event
  | [] => []
  | rec :: recs => recordEvents env s rec ++ runTrace env (processOne env s rec) recs

/-- The durable checkpoint store reconstructed from a prefix of the
event trace — the state a crash at that point would leave behind, since
each checkpoint event is flushed synchronously. -/
def replayCheckpoints (store : CheckpointStore) : List Event → CheckpointStore
  | [] => store
  | .checkpointedEv ref cid status time :: evs =>
      replayCheckpoints (recordCP store ref cid status time) evs
  | .skippedEv _ :: evs => replayCheckpoints store evs
  | .resolvedEv _ :: evs => replayCheckpoints store evs
  | .enrichedEv _ :: evs => replayCheckpoints store evs
  | .summarizedEv _ :: evs => replayCheckpoints store evs
  | .wroteEv _ :: evs => replayCheckpoints store evs

/-- Whether an event is a checkpoint event. -/
def isCheckpointEv : Event → Bool
  | .checkpointedEv _ _ _ _ => true
  | _ => false

theorem replayCheckpoints_append : ∀ (a b : List Event) (store : CheckpointStore),
    replayCheckpoints store (a ++ b) =
      replayCheckpoints (replayCheckpoints store a) b := by
  intro a
  induction a with
  | nil => intro b store; rfl
  | cons ev evs ih =>
    intro b store
    cases ev with
    | checkpointedEv r c st t => exact ih b (recordCP store r c st t)
    | skippedEv r => exact ih b store
    | resolvedEv r => exact ih b store
    | enrichedEv r => exact ih b store
    | summarizedEv r => exact ih b store
    | wroteEv r => exact ih b store

/-- Stage events carry no checkpoint, so replaying them does not touch
the store. -/
theorem replayCheckpoints_stageEvents (store : CheckpointStore) (ref : ExternalRef)
    (o : Except (Stage × PipelineError) Unit) :
    replayCheckpoints store (stageEvents ref o) = store := by
  cases o with
  | ok u => rfl
  | error p =>
    cases p with
    | mk stage e => cases stage <;> rfl

/-- Replay never loses a checkpoint entry that is already present. -/
theorem replayCheckpoints_mono : ∀ (evs : List Event) (store : CheckpointStore)
    (ref : ExternalRef), (lookupCP store ref).isSome = true →
    (lookupCP (replayCheckpoints store evs) ref).isSome = true := by
  intro evs
  induction evs with
  | nil => intro store ref h; exact h
  | cons ev evs ih =>
    intro store ref h
    cases ev with
    | checkpointedEv r c st t =>
      apply ih
      by_cases he : ref = r
      · subst he
        rw [lookupCP_recordCP_self]
        rfl
      · rw [lookupCP_recordCP_ne _ _ _ _ _ _ he]
        exact h
    | skippedEv r => exact ih store ref h
    | resolvedEv r => exact ih store ref h
    | enrichedEv r => exact ih store ref h
    | summarizedEv r => exact ih store ref h
    | wroteEv r => exact ih store ref h

/-- A checkpoint event inside a replayed prefix leaves an entry in the
reconstructed store. -/
theorem replayCheckpoints_keeps_entry : ∀ (p : List Event) (store : CheckpointStore)
    (ref : ExternalRef) (cid : Option CanonicalId) (status : CPStatus) (time : Nat),
    Event.checkpointedEv ref cid status time ∈ p →
    (lookupCP (replayCheckpoints store p) ref).isSome = true := by
  intro p
  induction p with
  | nil =>
    intro store ref cid status time h
    simp at h
  | cons ev evs ih =>
    intro store ref cid status time h
    rcases List.mem_cons.mp h with heq | hmem
    · rw [← heq]
      show (lookupCP (replayCheckpoints (recordCP store ref cid status time) evs)
        ref).isSome = true
      apply replayCheckpoints_mono
      rw [lookupCP_recordCP_self]
      rfl
    · cases ev with
      | checkpointedEv r c st t => exact ih (recordCP store r c st t) ref cid status time hmem
      | skippedEv r => exact ih store ref cid status time hmem
      | resolvedEv r => exact ih store ref cid status time hmem
      | enrichedEv r => exact ih store ref cid status time hmem
      | summarizedEv r => exact ih store ref cid status time hmem
      | wroteEv r => exact ih store ref cid status time hmem

/-- Replaying the events of one record produces exactly the coordinator
checkpoint update for that record. -/
theorem replayCheckpoints_recordEvents (env : Env) (s : RunState) (rec : InputRecord) :
    replayCheckpoints s.checkpoints (recordEvents env s rec) =
      (processOne env s rec).checkpoints := by
  by_cases hf : isFresh s.checkpoints rec.externalRef env.maxAge env.now
  · rw [recordEvents, if_pos hf, processOne_skip env s rec hf]
    rfl
  · rw [Bool.not_eq_true] at hf
    simp only [recordEvents, hf, Bool.false_eq_true, if_false]
    rw [replayCheckpoints_append, replayCheckpoints_stageEvents]
    cases hout : (runRecord env s.stores rec).outcome with
    | ok u =>
      simp only [processOne, hf, Bool.false_eq_true, if_false, hout, statusOf]
      rfl
    | error p =>
      cases p with
      | mk stage e =>
        simp only [processOne, hf, Bool.false_eq_true, if_false, hout, statusOf]
        rfl

/-- The checkpoint store of a finished run equals the replay of its full
trace. -/
theorem replayCheckpoints_runTrace : ∀ (env : Env) (recs : List InputRecord)
    (s : RunState), replayCheckpoints s.checkpoints (runTrace env s recs) =
      (processBatch env s recs).checkpoints := by
  intro env recs
  induction recs with
  | nil => intro s; rfl
  | cons rec recs ih =>
    intro s
    rw [runTrace, processBatch, List.foldl_cons, replayCheckpoints_append,
      replayCheckpoints_recordEvents]
    have := ih (processOne env s rec)
    rw [processBatch] at this
    exact this

/-- Stage events are never checkpoint events. -/
theorem stageEvents_no_checkpoint (ref : ExternalRef)
    (o : Except (Stage × PipelineError) Unit) :
    ∀ ev ∈ stageEvents ref o, isCheckpointEv ev = false := by
  cases o with
  | ok u =>
    intro ev hev
    simp only [stageEvents, List.mem_cons, List.not_mem_nil, or_false] at hev
    rcases hev with rfl | rfl | rfl | rfl <;> rfl
  | error p =>
    cases p with
    | mk stage e =>
      cases stage with
      | resolving =>
        intro ev hev
        simp [stageEvents] at hev
      | enriching =>
        intro ev hev
        simp only [stageEvents, List.mem_cons, List.not_mem_nil, or_false] at hev
        subst hev
        rfl
      | summarizing =>
        intro ev hev
        simp only [stageEvents, List.mem_cons, List.not_mem_nil, or_false] at hev
        rcases hev with rfl | rfl <;> rfl
      | writing =>
        intro ev hev
        simp only [stageEvents, List.mem_cons, List.not_mem_nil, or_false] at hev
        rcases hev with rfl | rfl | rfl <;> rfl

/-- Claim C3: the checkpoint event of each handled record is emitted
immediately after the final pipeline step of that record — never batched
at the end of the run — the trace replay matches the coordinator
checkpoint store, and any record whose checkpoint event survives in a
crash prefix is never lost. -/
theorem checkpoint_immediate_and_durable :
    (∀ (env : Env) (s : RunState) (rec : InputRecord),
      isFresh s.checkpoints rec.externalRef env.maxAge env.now = false →
        recordEvents env s rec =
          stageEvents rec.externalRef (runRecord env s.stores rec).outcome ++
            [.checkpointedEv rec.externalRef (runRecord env s.stores rec).canonicalId
              (statusOf (runRecord env s.stores rec).outcome) env.now] ∧
        (∀ ev ∈ stageEvents rec.externalRef (runRecord env s.stores rec).outcome,
          isCheckpointEv ev = false) ∧
        (∀ u, (runRecord env s.stores rec).outcome = .ok u →
          (stageEvents rec.externalRef (runRecord env s.stores rec).outcome).getLast? =
            some (.wroteEv rec.externalRef))) ∧
    (∀ (env : Env) (recs : List InputRecord) (s : RunState),
      replayCheckpoints s.checkpoints (runTrace env s recs) =
        (processBatch env s recs).checkpoints) ∧
    (∀ (env : Env) (s : RunState) (recs : List InputRecord) (p q : List Event),
      runTrace env s recs = p ++ q →
        ∀ (ref : ExternalRef) (cid : Option CanonicalId) (status : CPStatus) (time : Nat),
          Event.checkpointedEv ref cid status time ∈ p →
            (lookupCP (replayCheckpoints s.checkpoints p) ref).isSome = true) := by
  refine ⟨?_, replayCheckpoints_runTrace, ?_⟩
  · intro env s rec hf
    refine ⟨?_, stageEvents_no_checkpoint rec.externalRef _, ?_⟩
    · simp only [recordEvents, hf, Bool.false_eq_true, if_false]
    · intro u hout
      rw [hout]
      rfl
  · intro env s recs p q htrace ref cid status time hmem
    exact replayCheckpoints_keeps_entry p s.checkpoints ref cid status time hmem

/-- Witness for C3: the one-record trace of a failing resolution is a
single checkpoint event, and replaying that crash prefix retains the
entry. -/
theorem checkpoint_immediate_and_durable_witness :
    (lookupCP
      (replayCheckpoints
        (⟨[], ⟨[], [], []⟩, [], 0, 0, 0, 0, 0, 0⟩ : RunState).checkpoints
        [Event.checkpointedEv "r1" none .failed 10]) "r1").isSome = true :=
  checkpoint_immediate_and_durable.2.2
    ⟨fun _ => .error .ResolutionError, fun _ => .error .EnrichmentError,
      fun _ => .error .EnrichmentError, fun _ => .error .SummarizationError,
      fun _ => [], fun _ _ => true, 10, 30⟩
    ⟨[], ⟨[], [], []⟩, [], 0, 0, 0, 0, 0, 0⟩ [⟨"A", "r1"⟩]
    [Event.checkpointedEv "r1" none .failed 10] [] (by decide)
    "r1" none .failed 10 (by decide)

/-! ### Bounded worker pool -/

/-- Modelled from the spec: the observable state of one scheduled record
in the bounded worker pool. -/
inductive WorkerState
  | pending
  | enriching
  | done
  deriving DecidableEq, Repr

/-- The number of records currently in the enriching state. -/
def activeCount : List WorkerState → Nat
  | [] => 0
  | .enriching :: ws => activeCount ws + 1
  | .pending :: ws => activeCount ws
  | .done :: ws => activeCount ws

theorem activeCount_append : ∀ (a b : List WorkerState),
    activeCount (a ++ b) = activeCount a + activeCount b := by
  intro a b
  induction a with
  | nil => simp [activeCount]
  | cons w ws ih =>
    cases w with
    | pending =>
      rw [List.cons_append,
        show activeCount (WorkerState.pending :: (ws ++ b)) = activeCount (ws ++ b)
          from rfl,
        show activeCount (WorkerState.pending :: ws) = activeCount ws from rfl, ih]
    | enriching =>
      rw [List.cons_append,
        show activeCount (WorkerState.enriching :: (ws ++ b)) = activeCount (ws ++ b) + 1
          from rfl,
        show activeCount (WorkerState.enriching :: ws) = activeCount ws + 1 from rfl, ih]
      omega
    | done =>
      rw [List.cons_append,
        show activeCount (WorkerState.done :: (ws ++ b)) = activeCount (ws ++ b)
          from rfl,
        show activeCount (WorkerState.done :: ws) = activeCount ws from rfl, ih]

/-- Modelled from the spec: one transition of the semaphore-bounded
scheduler — a pending record may start enriching only while fewer than K
records are active; an active record may finish. -/
inductive SchedStep (K : Nat) : List WorkerState → List WorkerState → Prop
  | start (pre post : List WorkerState)
      (h : activeCount (pre ++ .pending :: post) < K) :
      SchedStep K (pre ++ .pending :: post) (pre ++ .enriching :: post)
  | finish (pre post : List WorkerState) :
      SchedStep K (pre ++ .enriching :: post) (pre ++ .done :: post)

/-- Reflexive-transitive closure of scheduler transitions. -/
inductive SchedReachable (K : Nat) : List WorkerState → List WorkerState → Prop
  | refl (s : List WorkerState) : SchedReachable K s s
  | tail {s t u : List WorkerState} :
      SchedReachable K s t → SchedStep K t u → SchedReachable K s u

/-- A pool of not-yet-started records has no active worker. -/
theorem activeCount_all_pending : ∀ (ws : List WorkerState),
    (∀ w ∈ ws, w = .pending) → activeCount ws = 0 := by
  intro ws
  induction ws with
  | nil => intro; rfl
  | cons w ws ih =>
    intro h
    have hw := h w (by simp)
    subst hw
    rw [show activeCount (.pending :: ws) = activeCount ws from rfl]
    exact ih (fun x hx => h x (by simp [hx]))

/-- Claim C8: starting from any batch of pending records, every state
the bounded scheduler can reach has at most K records simultaneously
enriching. -/
theorem concurrency_bound_respected (K : Nat) (init s : List WorkerState)
    (hinit : ∀ w ∈ init, w = .pending) (hreach : SchedReachable K init s) :
    activeCount s ≤ K := by
  induction hreach with
  | refl =>
    rw [activeCount_all_pending init hinit]
    exact Nat.zero_le K
  | tail hr hstep ih =>
    cases hstep with
    | start pre post h =>
      rw [activeCount_append] at h ⊢
      rw [show activeCount (WorkerState.pending :: post) = activeCount post from rfl] at h
      rw [show activeCount (WorkerState.enriching :: post) = activeCount post + 1 from rfl]
      omega
    | finish pre post =>
      rw [activeCount_append] at ih ⊢
      rw [show activeCount (WorkerState.enriching :: post) = activeCount post + 1
        from rfl] at ih
      rw [show activeCount (WorkerState.done :: post) = activeCount post from rfl]
      omega

/-- Witness for C8: with K = 3 and ten pending records the initial state
(reached by the empty schedule) has at most three active workers. -/
theorem concurrency_bound_respected_witness :
    activeCount [WorkerState.pending, .pending, .pending, .pending, .pending, .pending,
      .pending, .pending, .pending, .pending] ≤ 3 :=
  concurrency_bound_respected 3
    [WorkerState.pending, .pending, .pending, .pending, .pending, .pending, .pending,
      .pending, .pending, .pending]
    [WorkerState.pending, .pending, .pending, .pending, .pending, .pending, .pending,
      .pending, .pending, .pending]
    (by decide)
    (SchedReachable.refl _)

end VibeDining
